import Mathlib

/-!
Verification of the BDD/ROBDD construction engine in `src/bdd/`.

The repository has three Python files sharing one recursion scheme:
- `formula1_robdd.py`: class `ROBDD` with `mk` (hash-consing reduction rules)
  and a memoized `build`, on the oracle `(a ∧ ¬c) ∨ (b ⊕ d)`;
- `formula1_just_bdd.py`: class `BDD` with `new_node` (unconditional
  allocation) and an unmemoized `build`, same oracle;
- `formula2_just_bdd.py`: the same `BDD` class, oracle "count of 1-bits ≥ 3"
  over x1..x5.

The embedding below translates these directly:
- Python `dict` becomes an association list with update-in-place-or-append
  insertion (`insertA`) and first-match lookup (`lookupA`);
- the fallible dictionary lookups inside the hardcoded formulas (Python
  `KeyError`) become `Option`, and `build` propagates the failure;
- Python `tuple(sorted(env.items()))` becomes `frozenEnv` (insertion sort of
  the pairs by string key, comparing Unicode code points like Python);
- `ROBDD.build`'s index `idx` into `var_order` is kept, and the remaining
  suffix `var_order[idx:]` is passed alongside it as the structural
  recursion handle (`rest`); the Python terminal test `idx == len(var_order)`
  is exactly `rest = []` at the reachable states, and `var_order[idx]` is the
  head of `rest`;
- the state record carries two ghost fields that only observe the trace and
  never influence control flow: `computed` logs each memo key at the moment
  its subproblem is actually computed (i.e. not served from the memo), and
  `nevals` counts invocations of the oracle.
-/

/-- Association list lookup, modelling Python dictionary access `t[k]`:
first entry with the matching key. -/
def lookupA {κ ν : Type} [DecidableEq κ] : List (κ × ν) → κ → Option ν
  | [], _ => none
  | (k0, v0) :: rest, key => if k0 = key then some v0 else lookupA rest key

/-- Association list insertion, modelling Python dictionary assignment
`t[k] = v`: replace the existing binding in place, else append. -/
def insertA {κ ν : Type} [DecidableEq κ] : List (κ × ν) → κ → ν → List (κ × ν)
  | [], key, v => [(key, v)]
  | (k0, v0) :: rest, key, v =>
    if k0 = key then (key, v) :: rest else (k0, v0) :: insertA rest key v

/-- Partial assignments (Python `env_partial : Dict[str, int]`). -/
abbrev Env := List (String × Nat)

/-- Lexicographic comparison of character lists by Unicode code point,
mirroring how Python compares strings when sorting `env.items()`. -/
def charsLe : List Char → List Char → Bool
  | [], _ => true
  | _ :: _, [] => false
  | c :: cs, d :: ds =>
    if c.toNat < d.toNat then true
    else if d.toNat < c.toNat then false
    else charsLe cs ds

/-- String comparison used to sort environment items by key. -/
def strLe (a b : String) : Bool := charsLe a.data b.data

/-- Insert one binding into a key-sorted list of bindings. -/
def insSorted (p : String × Nat) : Env → Env
  | [] => [p]
  | q :: rest => if strLe p.1 q.1 then p :: q :: rest else q :: insSorted p rest

/-- Canonical form of a partial assignment, modelling Python
`tuple(sorted(env_partial.items()))` in `ROBDD.build` (line 88). -/
def frozenEnv : Env → Env
  | [] => []
  | p :: rest => insSorted p (frozenEnv rest)

/-- Keys of an environment are pairwise distinct (always true of the
environments a Python dict can denote). -/
def KeysNodup (e : Env) : Prop := (e.map Prod.fst).Nodup

/-- Hardcoded oracle of `formula1_robdd.py` and `formula1_just_bdd.py`
(lines 21-29 / 15-23): `(a ∧ ¬c) ∨ (b ⊕ d)` on 0/1 ints. Missing keys
(Python `KeyError`) yield `none`. Note `1 - c` is Nat subtraction, which
agrees with Python on the 0/1 values the builder supplies. -/
def formula1 (env : Env) : Option Nat :=
  match lookupA env ("a"), lookupA env ("b"), lookupA env ("c"), lookupA env ("d") with
  | some a, some b, some c, some d =>
    let left := a &&& (1 - c)
    let right := b ^^^ d
    some (if (left ||| right) ≠ 0 then 1 else 0)
  | _, _, _, _ => none

/-- Hardcoded oracle of `formula2_just_bdd.py` (lines 13-15):
1 iff the count of 1s among x1..x5 is at least 3. -/
def formula2 (env : Env) : Option Nat :=
  match lookupA env ("x1"), lookupA env ("x2"), lookupA env ("x3"),
        lookupA env ("x4"), lookupA env ("x5") with
  | some x1, some x2, some x3, some x4, some x5 =>
    let ones := x1 + x2 + x3 + x4 + x5
    some (if ones ≥ 3 then 1 else 0)
  | _, _, _, _, _ => none

/-- Diagram node (`Node` dataclass): `var` is `none` for terminals. -/
structure Node where
  var : Option String
  low : Nat
  high : Nat
deriving DecidableEq, Repr

/-- Node Store contents right after `__init__`: the two pre-allocated
terminals, id 0 and id 1. -/
def initNodes : List Node := [⟨none, 0, 0⟩, ⟨none, 1, 1⟩]

/-- State of one `ROBDD` build session: the Node Store, the Unique Table
and the Memo Table of `formula1_robdd.py`, plus the two ghost trace fields
`computed` (memo keys in order of actual computation) and `nevals`
(number of oracle invocations). -/
structure RState where
  nodes : List Node
  unique : List ((String × Nat × Nat) × Nat)
  memo : List ((Nat × Env) × Nat)
  computed : List (Nat × Env)
  nevals : Nat
deriving DecidableEq, Repr

/-- State produced by `ROBDD.__init__` (lines 41-58). -/
def initR : RState := ⟨initNodes, [], [], [], 0⟩

/-- Reduction rules of `ROBDD.mk` (lines 60-77): Rule 1 returns the common
child when `low == high`; Rule 2 reuses the Unique Table entry for
`(var, low, high)`; otherwise a fresh node is appended and registered. -/
def ROBDD.mk (s : RState) (var : String) (low high : Nat) : RState × Nat :=
  if low = high then (s, low)
  else
    match lookupA s.unique (var, low, high) with
    | some nid => (s, nid)
    | none =>
      ({ s with
          nodes := s.nodes ++ [⟨some var, low, high⟩],
          unique := insertA s.unique (var, low, high) s.nodes.length },
        s.nodes.length)

/-- Memoized Shannon expansion of `ROBDD.build` (lines 79-114). `idx` is the
Python recursion depth; `rest` is the suffix `var_order[idx:]`, carried as
the structural recursion handle (the Python terminal test
`idx == len(var_order)` is `rest = []`, and `var_order[idx]` is its head). -/
def ROBDD.buildAux (oracle : Env → Option Nat) :
    Nat → List String → Env → RState → Option (RState × Nat)
  | idx, rest, env, s =>
    match lookupA s.memo (idx, frozenEnv env) with
    | some nid => some (s, nid)
    | none =>
      match rest with
      | [] =>
        match oracle env with
        | none => none
        | some val =>
          some ({ s with
                    memo := insertA s.memo (idx, frozenEnv env) (if val = 1 then 1 else 0),
                    computed := s.computed ++ [(idx, frozenEnv env)],
                    nevals := s.nevals + 1 },
                if val = 1 then 1 else 0)
      | v :: rest2 =>
        match ROBDD.buildAux oracle (idx + 1) rest2 (insertA env v 0) s with
        | none => none
        | some (s0, low) =>
          match ROBDD.buildAux oracle (idx + 1) rest2 (insertA env v 1) s0 with
          | none => none
          | some (s1, high) =>
            match ROBDD.mk s1 v low high with
            | (s2, out) =>
              some ({ s2 with
                        memo := insertA s2.memo (idx, frozenEnv env) out,
                        computed := s2.computed ++ [(idx, frozenEnv env)] },
                    out)

/-- Whole reduced build of `formula1_robdd.py`: `ROBDD(order)` followed by
`robdd.build(0, {})` (lines 163-167). -/
def ROBDD.build (oracle : Env → Option Nat) (order : List String) :
    Option (RState × Nat) :=
  ROBDD.buildAux oracle 0 order [] initR

/-- Unconditional allocation of `BDD.new_node` (lines 46-49 / 40-43):
append the node, return its id. -/
def BDD.new_node (nodes : List Node) (var : String) (low high : Nat) :
    List Node × Nat :=
  (nodes ++ [⟨some var, low, high⟩], nodes.length)

/-- Unmemoized Shannon expansion of `BDD.build` (lines 51-70 of
`formula1_just_bdd.py`, identically lines 44-58 of `formula2_just_bdd.py`);
`rest` is the suffix `var_order[idx:]` as in `ROBDD.buildAux`. -/
def BDD.buildAux (oracle : Env → Option Nat) :
    List String → Env → List Node → Option (List Node × Nat)
  | [], env, nodes =>
    match oracle env with
    | none => none
    | some val => some (nodes, if val = 1 then 1 else 0)
  | v :: rest2, env, nodes =>
    match BDD.buildAux oracle rest2 (insertA env v 0) nodes with
    | none => none
    | some (n0, low) =>
      match BDD.buildAux oracle rest2 (insertA env v 1) n0 with
      | none => none
      | some (n1, high) => some (BDD.new_node n1 v low high)

/-- Whole unreduced build: `BDD(order)` followed by `bdd.build(0, {})`. -/
def BDD.build (oracle : Env → Option Nat) (order : List String) :
    Option (List Node × Nat) :=
  BDD.buildAux oracle order [] initNodes

/-- Traversal of the frozen diagram under an assignment `A`: follow the low
edge where `A` gives 0 and the high edge where it gives 1, until a terminal
(whose id 0/1 is its value) is reached. Fuel bounds the walk so the
function is total; `nodes.length` is always enough fuel on the acyclic
stores the builders produce. -/
def evalNode (nodes : List Node) (A : String → Nat) : Nat → Nat → Option Nat
  | 0, _ => none
  | fuel + 1, i =>
    match nodes[i]? with
    | none => none
    | some n =>
      match n.var with
      | none => some i
      | some v => evalNode nodes A fuel (if A v = 0 then n.low else n.high)

/-- Traversal reaches a terminal value with some amount of fuel. -/
def EvalTo (nodes : List Node) (A : String → Nat) (i r : Nat) : Prop :=
  ∃ fuel, evalNode nodes A fuel i = some r

/-- Complete an environment along the remaining variable suffix, binding
each variable to its value under the assignment `A` — exactly the bindings
`build` performs on the way from the current call to a leaf. -/
def bindFrom (A : String → Nat) : List String → Env → Env
  | [], env => env
  | v :: rest, env => bindFrom A rest (insertA env v (A v))

/-- Every 0/1 vector of a given length (all complete assignments, as bit
lists aligned with the variable order). -/
def allBits : Nat → List (List Nat)
  | 0 => [[]]
  | n + 1 =>
    ((allBits n).map (fun bs => 0 :: bs)) ++ ((allBits n).map (fun bs => 1 :: bs))

/-- Environment binding a variable order to a bit vector. -/
def envOfBits (names : List String) (bs : List Nat) : Env := List.zip names bs

/-- Total assignment function induced by a variable order and a bit vector
(variables outside the order read as 0). -/
def asgnOf (names : List String) (bs : List Nat) : String → Nat :=
  fun v => (lookupA (List.zip names bs) v).getD 0

/-- Variable order of the formula-1 scripts (`["a", "c", "b", "d"]`). -/
def order1 : List String := ["a", "c", "b", "d"]

/-- Variable order of `formula2_just_bdd.py`. -/
def order2 : List String := ["x1", "x2", "x3", "x4", "x5"]

/-- Variables read by `formula1`. -/
def vars1 : List String := ["a", "b", "c", "d"]

/-- Variables read by `formula2`. -/
def vars2 : List String := ["x1", "x2", "x3", "x4", "x5"]

/-- Result of the reduced build of formula 1 (the run of
`formula1_robdd.py`). -/
def run1R : Option (RState × Nat) := ROBDD.build formula1 order1

/-- Final reduced state of that run. -/
def s1R : RState := (run1R.getD (initR, 0)).1

/-- Root id of that run. -/
def root1R : Nat := (run1R.getD (initR, 0)).2

/-- Result of the unreduced build of formula 1 (the run of
`formula1_just_bdd.py`). -/
def run1U : Option (List Node × Nat) := BDD.build formula1 order1

/-- Final unreduced Node Store of that run. -/
def nodes1U : List Node := (run1U.getD ([], 0)).1

/-- Root id of that run. -/
def root1U : Nat := (run1U.getD ([], 0)).2

/-- Result of the unreduced build of formula 2 (the run of
`formula2_just_bdd.py`). -/
def run2U : Option (List Node × Nat) := BDD.build formula2 order2

/-- Final Node Store of that run. -/
def nodes2U : List Node := (run2U.getD ([], 0)).1

/-- Root id of that run. -/
def root2U : Nat := (run2U.getD ([], 0)).2

/-- Scenario-A assignment a=1, c=0, b=0, d=0 as a total function. -/
def Awit1 : String → Nat := fun w => if w = "a" then 1 else 0

/-- Scenario-A assignment a=0, c=1, b=0, d=0 as a total function. -/
def Awit2 : String → Nat := fun w => if w = "c" then 1 else 0

/-- A variable order with a duplicate name that still binds all four
variables `formula1` reads. -/
def dupOrder : List String := ["a", "c", "b", "d", "a"]

/-- Every non-terminal node's children have strictly smaller ids (so the
stored graph is acyclic and every child id is a valid index). -/
def ChildrenOk (nodes : List Node) : Prop :=
  ∀ (i : Nat) (n : Node), nodes[i]? = some n → n.var ≠ none → n.low < i ∧ n.high < i

/-- Rule-1 invariant: no stored non-terminal node has `low = high`. -/
def NoRedundant (nodes : List Node) : Prop :=
  ∀ (i : Nat) (n : Node), nodes[i]? = some n → n.var ≠ none → n.low ≠ n.high

/-- Terminals 0 and 1 sit at ids 0 and 1, exactly as `__init__` placed
them. -/
def TermsOk (nodes : List Node) : Prop :=
  nodes[0]? = some ⟨none, 0, 0⟩ ∧ nodes[1]? = some ⟨none, 1, 1⟩

/-- Every Unique Table entry describes the node actually stored at the
registered id. -/
def UniqueFwd (s : RState) : Prop :=
  ∀ v l h nid, lookupA s.unique (v, l, h) = some nid →
    s.nodes[nid]? = some ⟨some v, l, h⟩

/-- Every stored non-terminal node is registered in the Unique Table under
its own triple (this is what makes triples unique across live nodes). -/
def UniqueBwd (s : RState) : Prop :=
  ∀ (i : Nat) (v : String) (l h : Nat), s.nodes[i]? = some ⟨some v, l, h⟩ →
    lookupA s.unique (v, l, h) = some i

/-- Every Memo Table entry is a valid node id. -/
def MemoRange (s : RState) : Prop :=
  ∀ (k : Nat × Env) (nid : Nat), lookupA s.memo k = some nid → nid < s.nodes.length

/-- All structural invariants of a reduced build session state, including
the ghost-trace facts that no memo key was ever computed twice and that
every computed key is present in the Memo Table. -/
structure StoreOk (s : RState) : Prop where
  terms : TermsOk s.nodes
  children : ChildrenOk s.nodes
  nored : NoRedundant s.nodes
  fwd : UniqueFwd s
  bwd : UniqueBwd s
  memoRange : MemoRange s
  compNodup : s.computed.Nodup
  compMem : ∀ k, k ∈ s.computed → lookupA s.memo k ≠ none

/-- Everything one recursive `ROBDD.build` call guarantees about the state
it returns, relative to the state it was given. -/
structure BuildStep (idx : Nat) (rest : List String) (s s' : RState) (r : Nat) : Prop where
  ok : StoreOk s'
  grows : ∃ ext, s'.nodes = s.nodes ++ ext
  rlt : r < s'.nodes.length
  mono : ∀ (k : Nat × Env) (v2 : Nat),
    lookupA s.memo k = some v2 → lookupA s'.memo k = some v2
  fresh : ∀ k : Nat × Env,
    lookupA s'.memo k ≠ none → lookupA s.memo k ≠ none ∨ idx ≤ k.1
  lenle : s'.nodes.length ≤ s.nodes.length + (2 ^ rest.length - 1)
  nevle : s'.nevals ≤ s.nevals + 2 ^ rest.length

/-- Semantic accuracy of the Memo Table: an entry `(j, fe) ↦ nid` means
that, for every environment whose frozen form is `fe` and every 0/1
assignment `A`, the stored node `nid` evaluates (by graph traversal under
`A`) to the terminal the oracle prescribes for the completion of that
environment along `var_order[j:]`. -/
def MemoOk (oracle : Env → Option Nat) (order : List String) (s : RState) : Prop :=
  ∀ (j : Nat) (fe : Env) (nid : Nat), lookupA s.memo (j, fe) = some nid →
    ∀ env : Env, KeysNodup env → frozenEnv env = fe →
    ∀ A : String → Nat, (∀ w, A w = 0 ∨ A w = 1) →
    ∀ val : Nat, oracle (bindFrom A (order.drop j) env) = some val →
      EvalTo s.nodes A nid (if val = 1 then 1 else 0)

/-- Everything one recursive unreduced `BDD.build` call guarantees about
the Node Store it returns, relative to the store it was given. -/
structure UStep (rest : List String) (nodes nodes' : List Node) (r : Nat) : Prop where
  terms : TermsOk nodes'
  children : ChildrenOk nodes'
  grows : ∃ ext, nodes' = nodes ++ ext
  rlt : r < nodes'.length
  count : nodes'.length = nodes.length + (2 ^ rest.length - 1)

theorem getQ_lt {α : Type} : ∀ (l : List α) (i : Nat) (x : α),
    l[i]? = some x → i < l.length := by
  intro l
  induction l with
  | nil => intro i x h; simp at h
  | cons a t ih =>
    intro i x h
    cases i with
    | zero => simp only [List.length_cons]; omega
    | succ j =>
      simp only [List.getElem?_cons_succ] at h
      have := ih j x h
      simp only [List.length_cons]; omega

theorem getQ_app {α : Type} : ∀ (l ext : List α) (i : Nat) (x : α),
    l[i]? = some x → (l ++ ext)[i]? = some x := by
  intro l
  induction l with
  | nil => intro ext i x h; simp at h
  | cons a t ih =>
    intro ext i x h
    cases i with
    | zero => simpa using h
    | succ j =>
      simp only [List.getElem?_cons_succ] at h
      simpa only [List.cons_append, List.getElem?_cons_succ] using ih ext j x h

theorem getQ_snoc_self {α : Type} : ∀ (l : List α) (x : α),
    (l ++ [x])[l.length]? = some x := by
  intro l
  induction l with
  | nil => intro x; rfl
  | cons a t ih =>
    intro x
    simpa only [List.cons_append, List.length_cons, List.getElem?_cons_succ] using ih x

theorem getQ_snoc_cases {α : Type} : ∀ (l : List α) (x : α) (i : Nat) (y : α),
    (l ++ [x])[i]? = some y → l[i]? = some y ∨ (i = l.length ∧ y = x) := by
  intro l
  induction l with
  | nil =>
    intro x i y h
    cases i with
    | zero =>
      right
      refine ⟨rfl, ?_⟩
      simpa using h.symm
    | succ j => simp at h
  | cons a t ih =>
    intro x i y h
    cases i with
    | zero => left; simpa using h
    | succ j =>
      simp only [List.cons_append, List.getElem?_cons_succ] at h
      rcases ih x j y h with h1 | ⟨hj, hy⟩
      · left; simpa only [List.getElem?_cons_succ] using h1
      · right
        exact ⟨by simp [hj], hy⟩

theorem lookupA_insertA {κ ν : Type} [DecidableEq κ] :
    ∀ (t : List (κ × ν)) (key : κ) (v : ν) (k2 : κ),
    lookupA (insertA t key v) k2 = if key = k2 then some v else lookupA t k2 := by
  intro t key v
  induction t with
  | nil => intro k2; simp [insertA, lookupA]
  | cons p rest ih =>
    intro k2
    obtain ⟨k0, v0⟩ := p
    simp only [insertA]
    by_cases h0 : k0 = key
    · rw [if_pos h0]
      subst h0
      by_cases h2 : k0 = k2 <;> simp [lookupA, h2]
    · rw [if_neg h0]
      by_cases h2 : k0 = k2
      · subst h2
        have hne : ¬ key = k0 := fun hc => h0 hc.symm
        simp [lookupA, hne]
      · simp [lookupA, h2, ih]

theorem keys_insertA (key : String) (v : Nat) :
    ∀ e : Env, (insertA e key v).map Prod.fst = e.map Prod.fst ∨
      (key ∉ e.map Prod.fst ∧
        (insertA e key v).map Prod.fst = e.map Prod.fst ++ [key]) := by
  intro e
  induction e with
  | nil => right; simp [insertA]
  | cons p rest ih =>
    obtain ⟨k0, v0⟩ := p
    by_cases h0 : k0 = key
    · left; simp [insertA, h0]
    · rcases ih with h | ⟨hnot, h⟩
      · left; simp [insertA, h0, h]
      · right
        constructor
        · simp only [List.map_cons, List.mem_cons]
          rintro (h1 | h1)
          · exact h0 h1.symm
          · exact hnot h1
        · simp [insertA, h0, h]

theorem keysNodup_insertA (key : String) (v : Nat) :
    ∀ e : Env, KeysNodup e → KeysNodup (insertA e key v) := by
  intro e hn
  rcases keys_insertA key v e with h | ⟨hnot, h⟩
  · show ((insertA e key v).map Prod.fst).Nodup
    rw [h]; exact hn
  · show ((insertA e key v).map Prod.fst).Nodup
    rw [h]
    refine List.nodup_append.mpr ⟨hn, by simp, ?_⟩
    intro a ha hb
    rw [List.mem_singleton] at hb
    subst hb
    exact hnot ha

theorem insSorted_perm (p : String × Nat) :
    ∀ l : Env, List.Perm (insSorted p l) (p :: l) := by
  intro l
  induction l with
  | nil => simp [insSorted]
  | cons q rest ih =>
    by_cases h : strLe p.1 q.1
    · simp [insSorted, h]
    · simp only [insSorted]
      rw [if_neg h]
      exact (ih.cons q).trans (List.Perm.swap p q rest)

theorem frozenEnv_perm : ∀ e : Env, List.Perm (frozenEnv e) e := by
  intro e
  induction e with
  | nil => simp [frozenEnv]
  | cons p rest ih =>
    exact (insSorted_perm p (frozenEnv rest)).trans (ih.cons p)

theorem keysNodup_of_perm {e1 e2 : Env} (h : List.Perm e1 e2) :
    KeysNodup e1 → KeysNodup e2 :=
  fun hn => (h.map Prod.fst).nodup hn

theorem lookupA_eq_of_perm :
    ∀ {e1 e2 : Env}, List.Perm e1 e2 → KeysNodup e1 →
      ∀ k, lookupA e1 k = lookupA e2 k := by
  intro e1 e2 h
  induction h with
  | nil => intro _ k; rfl
  | cons p h ih =>
    rename_i t1 t2
    intro hnd k
    obtain ⟨k0, v0⟩ := p
    have htl : KeysNodup t1 := by
      have h2 : (k0 :: t1.map Prod.fst).Nodup := hnd
      exact (List.nodup_cons.mp h2).2
    by_cases hk : k0 = k <;> simp [lookupA, hk, ih htl k]
  | swap x y l =>
    intro hnd k
    obtain ⟨kx, vx⟩ := x
    obtain ⟨ky, vy⟩ := y
    have hxy : ky ≠ kx := by
      simp only [KeysNodup, List.map_cons, List.nodup_cons, List.mem_cons] at hnd
      exact fun hc => hnd.1 (Or.inl hc)
    by_cases hy : ky = k
    · subst hy
      simp [lookupA, hxy.symm]
    · by_cases hx : kx = k <;> simp [lookupA, hx, hy]
  | trans h1 h2 ih1 ih2 =>
    intro hnd k
    exact (ih1 hnd k).trans (ih2 (keysNodup_of_perm h1 hnd) k)

theorem lookup_eq_of_frozen_eq {e1 e2 : Env} (h1 : KeysNodup e1)
    (hf : frozenEnv e1 = frozenEnv e2) :
    ∀ k, lookupA e1 k = lookupA e2 k := by
  have hp : List.Perm e1 e2 :=
    ((frozenEnv_perm e1).symm.trans (hf ▸ frozenEnv_perm e2))
  exact lookupA_eq_of_perm hp h1

theorem bindFrom_resp (A : String → Nat) :
    ∀ (rest : List String) (e1 e2 : Env),
    (∀ k, lookupA e1 k = lookupA e2 k) →
    ∀ k, lookupA (bindFrom A rest e1) k = lookupA (bindFrom A rest e2) k := by
  intro rest
  induction rest with
  | nil => intro e1 e2 h k; exact h k
  | cons v t ih =>
    intro e1 e2 h k
    refine ih _ _ ?_ k
    intro k2
    simp [lookupA_insertA, h k2]

theorem evalNode_succ_eq (nodes : List Node) (A : String → Nat)
    (fuel i : Nat) :
    evalNode nodes A (fuel + 1) i =
      match nodes[i]? with
      | none => none
      | some n =>
        match n.var with
        | none => some i
        | some v => evalNode nodes A fuel (if A v = 0 then n.low else n.high) :=
  rfl

theorem evalNode_eq_none {nodes : List Node} {A : String → Nat}
    {fuel i : Nat} (h : nodes[i]? = none) :
    evalNode nodes A (fuel + 1) i = none := by
  rw [evalNode_succ_eq, h]

theorem evalNode_eq_term {nodes : List Node} {A : String → Nat}
    {fuel i : Nat} {n : Node} (h : nodes[i]? = some n) (hv : n.var = none) :
    evalNode nodes A (fuel + 1) i = some i := by
  obtain ⟨nv, nl, nh⟩ := n
  cases hv
  rw [evalNode_succ_eq, h]

theorem evalNode_eq_step {nodes : List Node} {A : String → Nat}
    {fuel i : Nat} {n : Node} {v : String}
    (h : nodes[i]? = some n) (hv : n.var = some v) :
    evalNode nodes A (fuel + 1) i =
      evalNode nodes A fuel (if A v = 0 then n.low else n.high) := by
  obtain ⟨nv, nl, nh⟩ := n
  cases hv
  rw [evalNode_succ_eq, h]

theorem evalNode_fuel_succ (nodes : List Node) (A : String → Nat) :
    ∀ fuel i r, evalNode nodes A fuel i = some r →
      evalNode nodes A (fuel + 1) i = some r := by
  intro fuel
  induction fuel with
  | zero => intro i r h; simp [evalNode] at h
  | succ f ih =>
    intro i r h
    cases hn : nodes[i]? with
    | none => rw [evalNode_eq_none hn] at h; exact absurd h (by simp)
    | some n =>
      cases hv : n.var with
      | none =>
        rw [evalNode_eq_term hn hv] at h
        rw [evalNode_eq_term hn hv]
        exact h
      | some v =>
        rw [evalNode_eq_step hn hv] at h
        rw [evalNode_eq_step hn hv]
        exact ih _ _ h

theorem evalNode_fuel_le (nodes : List Node) (A : String → Nat)
    {f1 f2 i r : Nat} (h : f1 ≤ f2)
    (he : evalNode nodes A f1 i = some r) : evalNode nodes A f2 i = some r := by
  induction h with
  | refl => exact he
  | step _ ih => exact evalNode_fuel_succ _ _ _ _ _ ih

theorem evalNode_app (nodes ext : List Node) (A : String → Nat) :
    ∀ fuel i r, evalNode nodes A fuel i = some r →
      evalNode (nodes ++ ext) A fuel i = some r := by
  intro fuel
  induction fuel with
  | zero => intro i r h; simp [evalNode] at h
  | succ f ih =>
    intro i r h
    cases hn : nodes[i]? with
    | none => rw [evalNode_eq_none hn] at h; exact absurd h (by simp)
    | some n =>
      have hn2 := getQ_app nodes ext i n hn
      cases hv : n.var with
      | none =>
        rw [evalNode_eq_term hn hv] at h
        rw [evalNode_eq_term hn2 hv]
        exact h
      | some v =>
        rw [evalNode_eq_step hn hv] at h
        rw [evalNode_eq_step hn2 hv]
        exact ih _ _ h

theorem EvalTo_app {nodes nodes2 : List Node} (h : ∃ ext, nodes2 = nodes ++ ext)
    {A : String → Nat} {i r : Nat} : EvalTo nodes A i r → EvalTo nodes2 A i r := by
  obtain ⟨ext, rfl⟩ := h
  rintro ⟨f, hf⟩
  exact ⟨f, evalNode_app _ _ _ _ _ _ hf⟩

theorem evalNode_tighten {nodes : List Node} {A : String → Nat}
    (hc : ChildrenOk nodes) :
    ∀ i fuel r, evalNode nodes A fuel i = some r →
      ∀ f2, i < f2 → evalNode nodes A f2 i = some r := by
  intro i
  induction i using Nat.strong_induction_on with
  | _ i ih =>
    intro fuel r h f2 hf2
    cases fuel with
    | zero => simp [evalNode] at h
    | succ f =>
      obtain ⟨g, rfl⟩ : ∃ g, f2 = g + 1 := ⟨f2 - 1, by omega⟩
      cases hn : nodes[i]? with
      | none => rw [evalNode_eq_none hn] at h; exact absurd h (by simp)
      | some n =>
        cases hv : n.var with
        | none =>
          rw [evalNode_eq_term hn hv] at h
          rw [evalNode_eq_term hn hv]
          exact h
        | some v =>
          rw [evalNode_eq_step hn hv] at h
          rw [evalNode_eq_step hn hv]
          have hchild := hc i n hn (by simp [hv])
          have hci : (if A v = 0 then n.low else n.high) < i := by
            by_cases hA : A v = 0 <;> simp [hA, hchild.1, hchild.2]
          exact ih _ hci f r h g (by omega)

theorem evalNode_len {nodes : List Node} {A : String → Nat} {i r : Nat}
    (hc : ChildrenOk nodes) (hi : i < nodes.length) (h : EvalTo nodes A i r) :
    evalNode nodes A nodes.length i = some r := by
  obtain ⟨f, hf⟩ := h
  exact evalNode_tighten hc i f r hf nodes.length hi

theorem buildAux_nil_eq (oracle : Env → Option Nat) (idx : Nat) (env : Env)
    (s : RState) :
    ROBDD.buildAux oracle idx [] env s =
      match lookupA s.memo (idx, frozenEnv env) with
      | some nid => some (s, nid)
      | none =>
        match oracle env with
        | none => none
        | some val =>
          some ({ s with
                    memo := insertA s.memo (idx, frozenEnv env) (if val = 1 then 1 else 0),
                    computed := s.computed ++ [(idx, frozenEnv env)],
                    nevals := s.nevals + 1 },
                if val = 1 then 1 else 0) := by
  rw [ROBDD.buildAux]

theorem buildAux_cons_eq (oracle : Env → Option Nat) (idx : Nat) (v : String)
    (rest2 : List String) (env : Env) (s : RState) :
    ROBDD.buildAux oracle idx (v :: rest2) env s =
      match lookupA s.memo (idx, frozenEnv env) with
      | some nid => some (s, nid)
      | none =>
        match ROBDD.buildAux oracle (idx + 1) rest2 (insertA env v 0) s with
        | none => none
        | some (s0, low) =>
          match ROBDD.buildAux oracle (idx + 1) rest2 (insertA env v 1) s0 with
          | none => none
          | some (s1, high) =>
            match ROBDD.mk s1 v low high with
            | (s2, out) =>
              some ({ s2 with
                        memo := insertA s2.memo (idx, frozenEnv env) out,
                        computed := s2.computed ++ [(idx, frozenEnv env)] },
                    out) := by
  rw [ROBDD.buildAux]

theorem bddAux_nil_eq (oracle : Env → Option Nat) (env : Env) (nodes : List Node) :
    BDD.buildAux oracle [] env nodes =
      match oracle env with
      | none => none
      | some val => some (nodes, if val = 1 then 1 else 0) := by
  rw [BDD.buildAux]

theorem bddAux_cons_eq (oracle : Env → Option Nat) (v : String)
    (rest2 : List String) (env : Env) (nodes : List Node) :
    BDD.buildAux oracle (v :: rest2) env nodes =
      match BDD.buildAux oracle rest2 (insertA env v 0) nodes with
      | none => none
      | some (n0, low) =>
        match BDD.buildAux oracle rest2 (insertA env v 1) n0 with
        | none => none
        | some (n1, high) => some (BDD.new_node n1 v low high) := by
  rw [BDD.buildAux]

theorem robdd_mk_struct (s : RState) (v : String) (low high : Nat)
    (s2 : RState) (out : Nat) (hmk : ROBDD.mk s v low high = (s2, out))
    (hs : StoreOk s) (hl : low < s.nodes.length) (hh : high < s.nodes.length) :
    StoreOk s2 ∧ (∃ ext, s2.nodes = s.nodes ++ ext) ∧ out < s2.nodes.length ∧
      s2.nodes.length ≤ s.nodes.length + 1 ∧ s2.memo = s.memo ∧
      s2.computed = s.computed ∧ s2.nevals = s.nevals := by
  rw [ROBDD.mk] at hmk
  by_cases hlh : low = high
  · rw [if_pos hlh] at hmk
    injection hmk with h1 h2
    subst h1
    subst h2
    exact ⟨hs, ⟨[], by simp⟩, by omega, by omega, rfl, rfl, rfl⟩
  · rw [if_neg hlh] at hmk
    cases hu : lookupA s.unique (v, low, high) with
    | some nid =>
      rw [hu] at hmk
      injection hmk with h1 h2
      subst h1
      subst h2
      have := getQ_lt _ _ _ (hs.fwd _ _ _ _ hu)
      exact ⟨hs, ⟨[], by simp⟩, this, by omega, rfl, rfl, rfl⟩
    | none =>
      rw [hu] at hmk
      injection hmk with h1 h2
      subst h1
      subst h2
      refine ⟨?_, ⟨[⟨some v, low, high⟩], rfl⟩, ?_, by simp, rfl, rfl, rfl⟩
      · refine ⟨⟨getQ_app _ _ _ _ hs.terms.1, getQ_app _ _ _ _ hs.terms.2⟩,
          ?_, ?_, ?_, ?_, ?_, hs.compNodup, hs.compMem⟩
        · intro i n hi hv2
          rcases getQ_snoc_cases _ _ _ _ hi with hold | ⟨hieq, hneq⟩
          · exact hs.children i n hold hv2
          · subst hieq
            subst hneq
            exact ⟨hl, hh⟩
        · intro i n hi hv2
          rcases getQ_snoc_cases _ _ _ _ hi with hold | ⟨hieq, hneq⟩
          · exact hs.nored i n hold hv2
          · subst hneq
            exact hlh
        · intro v2 l2 h2 nid hlook
          rw [lookupA_insertA] at hlook
          by_cases hkey : ((v, low, high) : String × Nat × Nat) = (v2, l2, h2)
          · rw [if_pos hkey] at hlook
            injection hlook with h3
            subst h3
            obtain ⟨hv2, hl2, hh2⟩ : v = v2 ∧ low = l2 ∧ high = h2 := by
              simpa [Prod.ext_iff] using hkey
            subst hv2
            subst hl2
            subst hh2
            exact getQ_snoc_self _ _
          · rw [if_neg hkey] at hlook
            exact getQ_app _ _ _ _ (hs.fwd _ _ _ _ hlook)
        · intro i v2 l2 h2 hi
          rcases getQ_snoc_cases _ _ _ _ hi with hold | ⟨hieq, hneq⟩
          · have hb := hs.bwd i v2 l2 h2 hold
            rw [lookupA_insertA]
            by_cases hkey : ((v, low, high) : String × Nat × Nat) = (v2, l2, h2)
            · exfalso
              rw [hkey] at hu
              rw [hu] at hb
              exact absurd hb (by simp)
            · rw [if_neg hkey]
              exact hb
          · subst hieq
            obtain ⟨hv2, hl2, hh2⟩ : some v2 = some v ∧ l2 = low ∧ h2 = high := by
              simpa [Node.mk.injEq] using hneq
            injection hv2 with hv2
            subst hv2
            subst hl2
            subst hh2
            rw [lookupA_insertA, if_pos rfl]
        · intro k nid hlk
          have := hs.memoRange k nid hlk
          simp only [List.length_append, List.length_cons, List.length_nil]
          omega
      · simp only [List.length_append, List.length_cons, List.length_nil]
        omega

theorem robdd_buildAux_struct (oracle : Env → Option Nat) :
    ∀ (rest : List String) (idx : Nat) (env : Env) (s s' : RState) (r : Nat),
      ROBDD.buildAux oracle idx rest env s = some (s', r) → StoreOk s →
      BuildStep idx rest s s' r := by
  intro rest
  induction rest with
  | nil =>
    intro idx env s s' r hb hs
    rw [buildAux_nil_eq] at hb
    cases hm : lookupA s.memo (idx, frozenEnv env) with
    | some nid =>
      rw [hm] at hb
      injection hb with hb
      injection hb with h1 h2
      subst h1
      subst h2
      exact ⟨hs, ⟨[], by simp⟩, hs.memoRange _ _ hm, fun k v2 h => h,
        fun k h => Or.inl h, by simp, by simp⟩
    | none =>
      rw [hm] at hb
      cases ho : oracle env with
      | none => rw [ho] at hb; exact absurd hb (by simp)
      | some val =>
        rw [ho] at hb
        injection hb with hb
        injection hb with h1 h2
        subst h1
        subst h2
        have hlen2 : 1 < s.nodes.length := getQ_lt _ _ _ hs.terms.2
        have hout : (if val = 1 then 1 else 0) < s.nodes.length := by
          by_cases hv : val = 1 <;> simp [hv] <;> omega
        have hkeymem : ((idx, frozenEnv env) : Nat × Env) ∉ s.computed := by
          intro hc
          exact hs.compMem _ hc hm
        refine ⟨⟨hs.terms, hs.children, hs.nored, hs.fwd, hs.bwd, ?_, ?_, ?_⟩,
          ⟨[], by simp⟩, hout, ?_, ?_, by simp, by simp⟩
        · intro k nid hlk
          rw [lookupA_insertA] at hlk
          by_cases hk : ((idx, frozenEnv env) : Nat × Env) = k
          · rw [if_pos hk] at hlk
            injection hlk with h3
            subst h3
            exact hout
          · rw [if_neg hk] at hlk
            exact hs.memoRange _ _ hlk
        · refine List.nodup_append.mpr ⟨hs.compNodup, by simp, ?_⟩
          intro a ha hb2
          rw [List.mem_singleton] at hb2
          subst hb2
          exact hkeymem ha
        · intro k hk
          rcases List.mem_append.mp hk with hk | hk
          · rw [lookupA_insertA]
            by_cases hke : ((idx, frozenEnv env) : Nat × Env) = k
            · rw [if_pos hke]; simp
            · rw [if_neg hke]
              exact hs.compMem _ hk
          · rw [List.mem_singleton] at hk
            subst hk
            rw [lookupA_insertA, if_pos rfl]
            simp
        · intro k v2 h
          rw [lookupA_insertA]
          by_cases hk : ((idx, frozenEnv env) : Nat × Env) = k
          · exfalso
            rw [← hk] at h
            rw [hm] at h
            exact absurd h (by simp)
          · rw [if_neg hk]
            exact h
        · intro k hne
          by_cases hk : ((idx, frozenEnv env) : Nat × Env) = k
          · right
            rw [← hk]
          · left
            rw [lookupA_insertA, if_neg hk] at hne
            exact hne
  | cons v rest2 ih =>
    intro idx env s s' r hb hs
    rw [buildAux_cons_eq] at hb
    split at hb
    · rename_i nid hm
      injection hb with hb
      injection hb with h1 h2
      subst h1
      subst h2
      have hp : 0 < 2 ^ (rest2.length + 1) := pow_pos (by omega) _
      exact ⟨hs, ⟨[], by simp⟩, hs.memoRange _ _ hm, fun k v2 h => h,
        fun k h => Or.inl h, by simp only [List.length_cons]; omega,
        by simp only [List.length_cons]; omega⟩
    · rename_i hm
      split at hb
      · exact absurd hb (by simp)
      · rename_i s0 low hb0
        split at hb
        · exact absurd hb (by simp)
        · rename_i s1 high hb1
          cases hmk : ROBDD.mk s1 v low high with
          | mk s2 out =>
            rw [hmk] at hb
            injection hb with hb
            injection hb with h1 h2
            subst h1
            subst h2
            have A0 := ih (idx + 1) (insertA env v 0) s s0 low hb0 hs
            have A1 := ih (idx + 1) (insertA env v 1) s0 s1 high hb1 A0.ok
            obtain ⟨e1, he1⟩ := A1.grows
            have hlow1 : low < s1.nodes.length := by
              have h := A0.rlt
              have h2 : s0.nodes.length ≤ s1.nodes.length := by
                rw [he1]; simp
              omega
            have M := robdd_mk_struct s1 v low high s2 out hmk A1.ok hlow1 A1.rlt
            obtain ⟨hs2, hext2, hout2, hlen2, hmemo2, hcomp2, hnev2⟩ := M
            have hkey2 : lookupA s2.memo (idx, frozenEnv env) = none := by
              rw [hmemo2]
              by_contra hcon
              rcases A1.fresh _ hcon with hne | hle
              · rcases A0.fresh _ hne with hne2 | hle2
                · exact hne2 hm
                · have hle2' : idx + 1 ≤ idx := hle2
                  omega
              · have hle' : idx + 1 ≤ idx := hle
                omega
            have hkeymem : ((idx, frozenEnv env) : Nat × Env) ∉ s2.computed := by
              intro hc
              exact hs2.compMem _ hc hkey2
            obtain ⟨e0, he0⟩ := A0.grows
            obtain ⟨e2, he2⟩ := hext2
            have hlen01 : s.nodes.length ≤ s0.nodes.length := by rw [he0]; simp
            have hlen12 : s0.nodes.length ≤ s1.nodes.length := by rw [he1]; simp
            have hpw : 2 ^ (rest2.length + 1) = 2 ^ rest2.length * 2 :=
              pow_succ 2 rest2.length
            have hpos : 0 < 2 ^ rest2.length := pow_pos (by omega) _
            refine ⟨⟨hs2.terms, hs2.children, hs2.nored, hs2.fwd, hs2.bwd,
              ?_, ?_, ?_⟩, ⟨e0 ++ e1 ++ e2, ?_⟩, hout2, ?_, ?_, ?_, ?_⟩
            · intro k nid hlk
              dsimp only at hlk
              rw [lookupA_insertA] at hlk
              by_cases hk : ((idx, frozenEnv env) : Nat × Env) = k
              · rw [if_pos hk] at hlk
                injection hlk with h3
                subst h3
                exact hout2
              · rw [if_neg hk] at hlk
                exact hs2.memoRange _ _ hlk
            · dsimp only
              refine List.nodup_append.mpr ⟨hs2.compNodup, by simp, ?_⟩
              intro a ha hb2
              rw [List.mem_singleton] at hb2
              subst hb2
              exact hkeymem ha
            · intro k hk
              dsimp only at hk ⊢
              rw [lookupA_insertA]
              rcases List.mem_append.mp hk with hk2 | hk2
              · by_cases hke : ((idx, frozenEnv env) : Nat × Env) = k
                · rw [if_pos hke]; simp
                · rw [if_neg hke]
                  exact hs2.compMem _ hk2
              · rw [List.mem_singleton] at hk2
                subst hk2
                rw [if_pos rfl]
                simp
            · dsimp only
              rw [he2, he1, he0]
              simp [List.append_assoc]
            · intro k v2 h
              have h0 := A0.mono k v2 h
              have h1 := A1.mono k v2 h0
              rw [← hmemo2] at h1
              dsimp only
              rw [lookupA_insertA]
              by_cases hk : ((idx, frozenEnv env) : Nat × Env) = k
              · exfalso
                rw [← hk] at h1
                rw [hkey2] at h1
                exact absurd h1 (by simp)
              · rw [if_neg hk]
                exact h1
            · intro k hne
              dsimp only at hne
              by_cases hk : ((idx, frozenEnv env) : Nat × Env) = k
              · right
                rw [← hk]
              · rw [lookupA_insertA, if_neg hk] at hne
                rw [hmemo2] at hne
                rcases A1.fresh _ hne with h3 | h3
                · rcases A0.fresh _ h3 with h4 | h4
                  · exact Or.inl h4
                  · exact Or.inr (Nat.le_of_succ_le h4)
                · exact Or.inr (Nat.le_of_succ_le h3)
            · dsimp only
              have l0 := A0.lenle
              have l1 := A1.lenle
              simp only [List.length_cons]
              omega
            · dsimp only
              have n0 := A0.nevle
              have n1 := A1.nevle
              simp only [List.length_cons]
              omega

theorem bdd_buildAux_struct (oracle : Env → Option Nat) :
    ∀ (rest : List String) (env : Env) (nodes nodes' : List Node) (r : Nat),
      BDD.buildAux oracle rest env nodes = some (nodes', r) →
      TermsOk nodes → ChildrenOk nodes →
      UStep rest nodes nodes' r := by
  intro rest
  induction rest with
  | nil =>
    intro env nodes nodes' r hb ht hc
    rw [bddAux_nil_eq] at hb
    split at hb
    · exact absurd hb (by simp)
    · rename_i val ho
      injection hb with hb
      injection hb with h1 h2
      subst h1
      subst h2
      refine ⟨ht, hc, ⟨[], by simp⟩, ?_, by simp⟩
      have h1lt := getQ_lt _ _ _ ht.2
      by_cases hv : val = 1 <;> simp [hv] <;> omega
  | cons v rest2 ih =>
    intro env nodes nodes' r hb ht hc
    rw [bddAux_cons_eq] at hb
    split at hb
    · exact absurd hb (by simp)
    · rename_i n0 low hb0
      split at hb
      · exact absurd hb (by simp)
      · rename_i n1 high hb1
        injection hb with hb
        rw [BDD.new_node] at hb
        injection hb with h1 h2
        subst h1
        subst h2
        have U0 := ih (insertA env v 0) nodes n0 low hb0 ht hc
        have U1 := ih (insertA env v 1) n0 n1 high hb1 U0.terms U0.children
        obtain ⟨e0, he0⟩ := U0.grows
        obtain ⟨e1, he1⟩ := U1.grows
        have hlow1 : low < n1.length := by
          have h := U0.rlt
          have h2 : n0.length ≤ n1.length := by rw [he1]; simp
          omega
        refine ⟨⟨getQ_app _ _ _ _ U1.terms.1, getQ_app _ _ _ _ U1.terms.2⟩,
          ?_, ⟨e0 ++ e1 ++ [⟨some v, low, high⟩], ?_⟩, ?_, ?_⟩
        · intro i n hi hv2
          rcases getQ_snoc_cases _ _ _ _ hi with hold | ⟨hieq, hneq⟩
          · exact U1.children i n hold hv2
          · subst hieq
            subst hneq
            exact ⟨hlow1, U1.rlt⟩
        · rw [he1, he0]
          simp [List.append_assoc]
        · simp only [List.length_append, List.length_cons, List.length_nil]
          omega
        · have c0 := U0.count
          have c1 := U1.count
          have hpw : 2 ^ (rest2.length + 1) = 2 ^ rest2.length * 2 := pow_succ 2 _
          have hpos : 0 < 2 ^ rest2.length := pow_pos (by omega) _
          simp only [List.length_append, List.length_cons, List.length_nil]
          omega

theorem robdd_mk_sem_low (s : RState) (v : String) (low high : Nat)
    (s2 : RState) (out : Nat) (hmk : ROBDD.mk s v low high = (s2, out))
    (hs : StoreOk s) (A : String → Nat) (hAv : A v = 0) (rl : Nat)
    (hL : EvalTo s.nodes A low rl) : EvalTo s2.nodes A out rl := by
  rw [ROBDD.mk] at hmk
  by_cases hlh : low = high
  · rw [if_pos hlh] at hmk
    injection hmk with h1 h2
    subst h1
    subst h2
    exact hL
  · rw [if_neg hlh] at hmk
    cases hu : lookupA s.unique (v, low, high) with
    | some nid =>
      rw [hu] at hmk
      injection hmk with h1 h2
      subst h1
      subst h2
      have hn := hs.fwd _ _ _ _ hu
      obtain ⟨f, hf⟩ := hL
      refine ⟨f + 1, ?_⟩
      rw [evalNode_eq_step hn rfl, if_pos hAv]
      exact hf
    | none =>
      rw [hu] at hmk
      injection hmk with h1 h2
      subst h1
      subst h2
      have hn : (s.nodes ++ [(⟨some v, low, high⟩ : Node)])[s.nodes.length]? =
          some ⟨some v, low, high⟩ := getQ_snoc_self _ _
      obtain ⟨f, hf⟩ := hL
      refine ⟨f + 1, ?_⟩
      rw [evalNode_eq_step hn rfl, if_pos hAv]
      exact evalNode_app _ _ _ _ _ _ hf

theorem robdd_mk_sem_high (s : RState) (v : String) (low high : Nat)
    (s2 : RState) (out : Nat) (hmk : ROBDD.mk s v low high = (s2, out))
    (hs : StoreOk s) (A : String → Nat) (hAv : ¬ A v = 0) (rh : Nat)
    (hH : EvalTo s.nodes A high rh) : EvalTo s2.nodes A out rh := by
  rw [ROBDD.mk] at hmk
  by_cases hlh : low = high
  · rw [if_pos hlh] at hmk
    injection hmk with h1 h2
    subst h1
    subst h2
    rw [hlh]
    exact hH
  · rw [if_neg hlh] at hmk
    cases hu : lookupA s.unique (v, low, high) with
    | some nid =>
      rw [hu] at hmk
      injection hmk with h1 h2
      subst h1
      subst h2
      have hn := hs.fwd _ _ _ _ hu
      obtain ⟨f, hf⟩ := hH
      refine ⟨f + 1, ?_⟩
      rw [evalNode_eq_step hn rfl, if_neg hAv]
      exact hf
    | none =>
      rw [hu] at hmk
      injection hmk with h1 h2
      subst h1
      subst h2
      have hn : (s.nodes ++ [(⟨some v, low, high⟩ : Node)])[s.nodes.length]? =
          some ⟨some v, low, high⟩ := getQ_snoc_self _ _
      obtain ⟨f, hf⟩ := hH
      refine ⟨f + 1, ?_⟩
      rw [evalNode_eq_step hn rfl, if_neg hAv]
      exact evalNode_app _ _ _ _ _ _ hf

theorem robdd_buildAux_sem (oracle : Env → Option Nat)
    (hresp : ∀ e1 e2 : Env, (∀ k, lookupA e1 k = lookupA e2 k) → oracle e1 = oracle e2)
    (order : List String) :
    ∀ (rest : List String) (idx : Nat), order.drop idx = rest →
    ∀ (env : Env) (s s' : RState) (r : Nat),
      ROBDD.buildAux oracle idx rest env s = some (s', r) →
      StoreOk s → MemoOk oracle order s → KeysNodup env →
      MemoOk oracle order s' ∧
      ∀ A : String → Nat, (∀ w, A w = 0 ∨ A w = 1) →
        ∀ val : Nat, oracle (bindFrom A rest env) = some val →
          EvalTo s'.nodes A r (if val = 1 then 1 else 0) := by
  intro rest
  induction rest with
  | nil =>
    intro idx hdrop env s s' r hb hs hM hK
    rw [buildAux_nil_eq] at hb
    split at hb
    · rename_i nid hm
      injection hb with hb
      injection hb with h1 h2
      subst h1
      subst h2
      refine ⟨hM, ?_⟩
      intro A hA val hval
      have h2 : oracle (bindFrom A (order.drop idx) env) = some val := by
        rw [hdrop]; exact hval
      exact hM idx (frozenEnv env) nid hm env hK rfl A hA val h2
    · rename_i hm
      split at hb
      · exact absurd hb (by simp)
      · rename_i val0 ho
        injection hb with hb
        injection hb with h1 h2
        subst h1
        subst h2
        have hev : ∀ A : String → Nat,
            EvalTo s.nodes A (if val0 = 1 then 1 else 0) (if val0 = 1 then 1 else 0) := by
          intro A
          by_cases hv : val0 = 1
          · rw [if_pos hv]
            exact ⟨1, evalNode_eq_term hs.terms.2 rfl⟩
          · rw [if_neg hv]
            exact ⟨1, evalNode_eq_term hs.terms.1 rfl⟩
        constructor
        · intro j fe nid hlk
          dsimp only at hlk
          rw [lookupA_insertA] at hlk
          by_cases hk : ((idx, frozenEnv env) : Nat × Env) = (j, fe)
          · rw [if_pos hk] at hlk
            injection hlk with h3
            subst h3
            obtain ⟨hj, hfe⟩ : idx = j ∧ frozenEnv env = fe := by
              simpa [Prod.ext_iff] using hk
            subst hj
            subst hfe
            intro env2 hK2 hfe2 A hA val hval
            rw [hdrop] at hval
            have hval2 : oracle env2 = some val := hval
            have hle : ∀ k, lookupA env2 k = lookupA env k :=
              lookup_eq_of_frozen_eq hK2 hfe2
            rw [hresp env2 env hle] at hval2
            rw [ho] at hval2
            injection hval2 with h4
            subst h4
            exact hev A
          · rw [if_neg hk] at hlk
            exact hM j fe nid hlk
        · intro A hA val hval
          have hval2 : oracle env = some val := hval
          rw [ho] at hval2
          injection hval2 with h4
          subst h4
          exact hev A
  | cons v rest2 ih =>
    intro idx hdrop env s s' r hb hs hM hK
    have hdrop2 : order.drop (idx + 1) = rest2 := by
      have h := List.drop_drop 1 idx order
      rw [hdrop] at h
      simpa using h.symm
    rw [buildAux_cons_eq] at hb
    split at hb
    · rename_i nid hm
      injection hb with hb
      injection hb with h1 h2
      subst h1
      subst h2
      refine ⟨hM, ?_⟩
      intro A hA val hval
      have h2 : oracle (bindFrom A (order.drop idx) env) = some val := by
        rw [hdrop]; exact hval
      exact hM idx (frozenEnv env) nid hm env hK rfl A hA val h2
    · rename_i hm
      split at hb
      · exact absurd hb (by simp)
      · rename_i s0 low hb0
        split at hb
        · exact absurd hb (by simp)
        · rename_i s1 high hb1
          cases hmk : ROBDD.mk s1 v low high with
          | mk s2 out =>
            rw [hmk] at hb
            injection hb with hb
            injection hb with h1 h2
            subst h1
            subst h2
            have A0 := robdd_buildAux_struct oracle rest2 (idx + 1)
              (insertA env v 0) s s0 low hb0 hs
            have A1 := robdd_buildAux_struct oracle rest2 (idx + 1)
              (insertA env v 1) s0 s1 high hb1 A0.ok
            have hK0 : KeysNodup (insertA env v 0) := keysNodup_insertA _ _ _ hK
            have hK1 : KeysNodup (insertA env v 1) := keysNodup_insertA _ _ _ hK
            have B0 := ih (idx + 1) hdrop2 (insertA env v 0) s s0 low hb0 hs hM hK0
            have B1 := ih (idx + 1) hdrop2 (insertA env v 1) s0 s1 high hb1 A0.ok B0.1 hK1
            obtain ⟨e1, he1⟩ := A1.grows
            have hlow1 : low < s1.nodes.length := by
              have h := A0.rlt
              have h2 : s0.nodes.length ≤ s1.nodes.length := by rw [he1]; simp
              omega
            have M := robdd_mk_struct s1 v low high s2 out hmk A1.ok hlow1 A1.rlt
            obtain ⟨hs2, hext2, hout2, hlen2m, hmemo2, hcomp2, hnev2⟩ := M
            have hsem : ∀ env2 : Env, KeysNodup env2 →
                (∀ k, lookupA env2 k = lookupA env k) →
                ∀ A : String → Nat, (∀ w, A w = 0 ∨ A w = 1) →
                ∀ val : Nat, oracle (bindFrom A (v :: rest2) env2) = some val →
                  EvalTo s2.nodes A out (if val = 1 then 1 else 0) := by
              intro env2 hK2 hle A hA val hval
              have hval' : oracle (bindFrom A rest2 (insertA env2 v (A v))) = some val := hval
              rcases hA v with hAv | hAv
              · have hle0 : ∀ k, lookupA (insertA env2 v (A v)) k =
                    lookupA (insertA env v 0) k := by
                  intro k
                  rw [lookupA_insertA, lookupA_insertA, hAv, hle k]
                have ho2 : oracle (bindFrom A rest2 (insertA env v 0)) = some val := by
                  rw [← hresp _ _ (bindFrom_resp A rest2 _ _ hle0)]
                  exact hval'
                have hL := B0.2 A hA val ho2
                have hL1 : EvalTo s1.nodes A low (if val = 1 then 1 else 0) :=
                  EvalTo_app A1.grows hL
                exact robdd_mk_sem_low s1 v low high s2 out hmk A1.ok A hAv _ hL1
              · have hAvne : ¬ A v = 0 := by rw [hAv]; omega
                have hle1 : ∀ k, lookupA (insertA env2 v (A v)) k =
                    lookupA (insertA env v 1) k := by
                  intro k
                  rw [lookupA_insertA, lookupA_insertA, hAv, hle k]
                have ho2 : oracle (bindFrom A rest2 (insertA env v 1)) = some val := by
                  rw [← hresp _ _ (bindFrom_resp A rest2 _ _ hle1)]
                  exact hval'
                have hH := B1.2 A hA val ho2
                exact robdd_mk_sem_high s1 v low high s2 out hmk A1.ok A hAvne _ hH
            constructor
            · intro j fe nid hlk
              dsimp only at hlk
              rw [lookupA_insertA] at hlk
              by_cases hk : ((idx, frozenEnv env) : Nat × Env) = (j, fe)
              · rw [if_pos hk] at hlk
                injection hlk with h3
                subst h3
                obtain ⟨hj, hfe⟩ : idx = j ∧ frozenEnv env = fe := by
                  simpa [Prod.ext_iff] using hk
                subst hj
                subst hfe
                intro env2 hK2 hfe2 A hA val hval
                have hle : ∀ k, lookupA env2 k = lookupA env k :=
                  lookup_eq_of_frozen_eq hK2 hfe2
                rw [hdrop] at hval
                exact hsem env2 hK2 hle A hA val hval
              · rw [if_neg hk] at hlk
                rw [hmemo2] at hlk
                intro env2 hK2 hfe2 A hA val hval
                exact EvalTo_app hext2 (B1.1 j fe nid hlk env2 hK2 hfe2 A hA val hval)
            · intro A hA val hval
              exact hsem env hK (fun k => rfl) A hA val hval

theorem initNodes_children : ChildrenOk initNodes := by
  intro i n hi hv
  exfalso
  apply hv
  match i with
  | 0 => injection hi with h; rw [← h]; rfl
  | 1 => injection hi with h; rw [← h]; rfl
  | j + 2 => simp [initNodes] at hi

theorem initNodes_terms : TermsOk initNodes := ⟨rfl, rfl⟩

theorem initR_ok : StoreOk initR := by
  refine ⟨⟨rfl, rfl⟩, initNodes_children, ?_, ?_, ?_, ?_, ?_, ?_⟩
  · intro i n hi hv
    exfalso
    apply hv
    match i with
    | 0 => injection hi with h; rw [← h]; rfl
    | 1 => injection hi with h; rw [← h]; rfl
    | j + 2 => simp [initR, initNodes] at hi
  · intro v l h nid hlk
    simp [initR, lookupA] at hlk
  · intro i v l h hi
    exfalso
    match i with
    | 0 =>
      injection hi with h2
      have h3 : (⟨none, 0, 0⟩ : Node) = ⟨some v, l, h⟩ := h2
      simp at h3
    | 1 =>
      injection hi with h2
      have h3 : (⟨none, 1, 1⟩ : Node) = ⟨some v, l, h⟩ := h2
      simp at h3
    | j + 2 => simp [initR, initNodes] at hi
  · intro k nid hlk
    simp [initR, lookupA] at hlk
  · simp [initR]
  · intro k hk
    simp [initR] at hk

theorem initR_memoOk (oracle : Env → Option Nat) (order : List String) :
    MemoOk oracle order initR := by
  intro j fe nid hlk
  simp [initR, lookupA] at hlk

theorem emptyEnv_keysNodup : KeysNodup [] := by
  simp [KeysNodup]

theorem formula1_resp :
    ∀ e1 e2 : Env, (∀ k, lookupA e1 k = lookupA e2 k) → formula1 e1 = formula1 e2 := by
  intro e1 e2 h
  unfold formula1
  simp only [h]

theorem formula1_total (env : Env)
    (ha : (lookupA env ("a")).isSome) (hb : (lookupA env ("b")).isSome)
    (hc : (lookupA env ("c")).isSome) (hd : (lookupA env ("d")).isSome) :
    (formula1 env).isSome := by
  unfold formula1
  obtain ⟨a, h1⟩ := Option.isSome_iff_exists.mp ha
  obtain ⟨b, h2⟩ := Option.isSome_iff_exists.mp hb
  obtain ⟨c, h3⟩ := Option.isSome_iff_exists.mp hc
  obtain ⟨d, h4⟩ := Option.isSome_iff_exists.mp hd
  rw [h1, h2, h3, h4]
  rfl

theorem formula2_total (env : Env)
    (h1 : (lookupA env ("x1")).isSome) (h2 : (lookupA env ("x2")).isSome)
    (h3 : (lookupA env ("x3")).isSome) (h4 : (lookupA env ("x4")).isSome)
    (h5 : (lookupA env ("x5")).isSome) :
    (formula2 env).isSome := by
  unfold formula2
  obtain ⟨x1, e1⟩ := Option.isSome_iff_exists.mp h1
  obtain ⟨x2, e2⟩ := Option.isSome_iff_exists.mp h2
  obtain ⟨x3, e3⟩ := Option.isSome_iff_exists.mp h3
  obtain ⟨x4, e4⟩ := Option.isSome_iff_exists.mp h4
  obtain ⟨x5, e5⟩ := Option.isSome_iff_exists.mp h5
  rw [e1, e2, e3, e4, e5]
  rfl

theorem cover_step (vars : List String) (v : String) (b : Nat)
    (rest2 : List String) (env : Env)
    (hcov : ∀ k, k ∈ vars → k ∈ v :: rest2 ∨ (lookupA env k).isSome) :
    ∀ k, k ∈ vars → k ∈ rest2 ∨ (lookupA (insertA env v b) k).isSome := by
  intro k hk
  rcases hcov k hk with h | h
  · rcases List.mem_cons.mp h with h2 | h2
    · subst h2
      right
      rw [lookupA_insertA, if_pos rfl]
      rfl
    · left
      exact h2
  · right
    rw [lookupA_insertA]
    by_cases hkv : k = k
    · by_cases hv2 : v = k
      · rw [if_pos hv2]; rfl
      · rw [if_neg hv2]; exact h
    · exact absurd rfl hkv

theorem robdd_buildAux_cons_run (oracle : Env → Option Nat) (idx : Nat) (v : String)
    (rest2 : List String) (env : Env) (s s0 s1 s2 : RState) (low high out : Nat)
    (hm : lookupA s.memo (idx, frozenEnv env) = none)
    (h0 : ROBDD.buildAux oracle (idx + 1) rest2 (insertA env v 0) s = some (s0, low))
    (h1 : ROBDD.buildAux oracle (idx + 1) rest2 (insertA env v 1) s0 = some (s1, high))
    (hmk : ROBDD.mk s1 v low high = (s2, out)) :
    ROBDD.buildAux oracle idx (v :: rest2) env s =
      some ({ s2 with memo := insertA s2.memo (idx, frozenEnv env) out,
                      computed := s2.computed ++ [(idx, frozenEnv env)] }, out) := by
  have e2 : ROBDD.buildAux oracle idx (v :: rest2) env s =
      match ROBDD.buildAux oracle (idx + 1) rest2 (insertA env v 1) s0 with
      | none => none
      | some (s1, high) =>
        match ROBDD.mk s1 v low high with
        | (s2, out) =>
          some ({ s2 with memo := insertA s2.memo (idx, frozenEnv env) out,
                          computed := s2.computed ++ [(idx, frozenEnv env)] }, out) := by
    rw [buildAux_cons_eq, hm, h0]
  rw [e2, h1]
  show (match ROBDD.mk s1 v low high with
    | (s2, out) =>
      some ({ s2 with memo := insertA s2.memo (idx, frozenEnv env) out,
                      computed := s2.computed ++ [(idx, frozenEnv env)] }, out)) =
    some ({ s2 with memo := insertA s2.memo (idx, frozenEnv env) out,
                    computed := s2.computed ++ [(idx, frozenEnv env)] }, out)
  rw [hmk]

theorem bdd_buildAux_cons_run (oracle : Env → Option Nat) (v : String)
    (rest2 : List String) (env : Env) (nodes n0 n1 : List Node) (low high : Nat)
    (h0 : BDD.buildAux oracle rest2 (insertA env v 0) nodes = some (n0, low))
    (h1 : BDD.buildAux oracle rest2 (insertA env v 1) n0 = some (n1, high)) :
    BDD.buildAux oracle (v :: rest2) env nodes =
      some (BDD.new_node n1 v low high) := by
  have e2 : BDD.buildAux oracle (v :: rest2) env nodes =
      match BDD.buildAux oracle rest2 (insertA env v 1) n0 with
      | none => none
      | some (n1, high) => some (BDD.new_node n1 v low high) := by
    rw [bddAux_cons_eq, h0]
  rw [e2, h1]

theorem robdd_total_aux :
    ∀ (rest : List String) (idx : Nat) (env : Env) (s : RState),
      (∀ k, k ∈ vars1 → k ∈ rest ∨ (lookupA env k).isSome) →
      (ROBDD.buildAux formula1 idx rest env s).isSome := by
  intro rest
  induction rest with
  | nil =>
    intro idx env s hcov
    rw [buildAux_nil_eq]
    cases hm : lookupA s.memo (idx, frozenEnv env) with
    | some nid => rfl
    | none =>
      have hfa : (lookupA env ("a")).isSome := by
        rcases hcov ("a") (by simp [vars1]) with h | h
        · simp at h
        · exact h
      have hfb : (lookupA env ("b")).isSome := by
        rcases hcov ("b") (by simp [vars1]) with h | h
        · simp at h
        · exact h
      have hfc : (lookupA env ("c")).isSome := by
        rcases hcov ("c") (by simp [vars1]) with h | h
        · simp at h
        · exact h
      have hfd : (lookupA env ("d")).isSome := by
        rcases hcov ("d") (by simp [vars1]) with h | h
        · simp at h
        · exact h
      obtain ⟨val, hval⟩ :=
        Option.isSome_iff_exists.mp (formula1_total env hfa hfb hfc hfd)
      rw [hval]
      rfl
  | cons v rest2 ih =>
    intro idx env s hcov
    cases hm : lookupA s.memo (idx, frozenEnv env) with
    | some nid => rw [buildAux_cons_eq, hm]; rfl
    | none =>
      have h0 := ih (idx + 1) (insertA env v 0) s (cover_step vars1 v 0 rest2 env hcov)
      obtain ⟨p0, hp0⟩ := Option.isSome_iff_exists.mp h0
      obtain ⟨s0, low⟩ := p0
      have h1 := ih (idx + 1) (insertA env v 1) s0 (cover_step vars1 v 1 rest2 env hcov)
      obtain ⟨p1, hp1⟩ := Option.isSome_iff_exists.mp h1
      obtain ⟨s1, high⟩ := p1
      cases hmk : ROBDD.mk s1 v low high with
      | mk s2 out =>
        rw [robdd_buildAux_cons_run formula1 idx v rest2 env s s0 s1 s2 low high out
          hm hp0 hp1 hmk]
        rfl

theorem bdd_total_aux :
    ∀ (rest : List String) (env : Env) (nodes : List Node),
      (∀ k, k ∈ vars2 → k ∈ rest ∨ (lookupA env k).isSome) →
      (BDD.buildAux formula2 rest env nodes).isSome := by
  intro rest
  induction rest with
  | nil =>
    intro env nodes hcov
    rw [bddAux_nil_eq]
    have hget : ∀ x, x ∈ vars2 → (lookupA env x).isSome := by
      intro x hx
      rcases hcov x hx with h | h
      · simp at h
      · exact h
    obtain ⟨val, hval⟩ := Option.isSome_iff_exists.mp
      (formula2_total env (hget ("x1") (by simp [vars2])) (hget ("x2") (by simp [vars2]))
        (hget ("x3") (by simp [vars2])) (hget ("x4") (by simp [vars2]))
        (hget ("x5") (by simp [vars2])))
    rw [hval]
    rfl
  | cons v rest2 ih =>
    intro env nodes hcov
    have h0 := ih (insertA env v 0) nodes (cover_step vars2 v 0 rest2 env hcov)
    obtain ⟨p0, hp0⟩ := Option.isSome_iff_exists.mp h0
    obtain ⟨n0, low⟩ := p0
    have h1 := ih (insertA env v 1) n0 (cover_step vars2 v 1 rest2 env hcov)
    obtain ⟨p1, hp1⟩ := Option.isSome_iff_exists.mp h1
    obtain ⟨n1, high⟩ := p1
    rw [bdd_buildAux_cons_run formula2 v rest2 env nodes n0 n1 low high hp0 hp1]
    rfl

/-- C1: for every complete 0/1 assignment over the variable order,
traversing the graph produced by a reduced build (`ROBDD.build` started at
depth 0 with the empty assignment) from the returned root id — taking the
low edge where the assignment is 0 and the high edge where it is 1 —
reaches the terminal whose value equals the oracle's output on that
assignment. -/
theorem robdd_build_functional_equivalence
    (oracle : Env → Option Nat)
    (hresp : ∀ e1 e2 : Env, (∀ k, lookupA e1 k = lookupA e2 k) → oracle e1 = oracle e2)
    (order : List String) (s : RState) (root : Nat)
    (hb : ROBDD.build oracle order = some (s, root))
    (A : String → Nat) (hA : ∀ w, A w = 0 ∨ A w = 1)
    (val : Nat) (hval : val = 0 ∨ val = 1)
    (ho : oracle (bindFrom A order []) = some val) :
    evalNode s.nodes A s.nodes.length root = some val := by
  rw [ROBDD.build] at hb
  have hst := robdd_buildAux_struct oracle order 0 [] initR s root hb initR_ok
  have hsem := robdd_buildAux_sem oracle hresp order order 0 (List.drop_zero order)
    [] initR s root hb initR_ok (initR_memoOk oracle order) emptyEnv_keysNodup
  have hE := hsem.2 A hA val ho
  have hE2 : EvalTo s.nodes A root val := by
    rcases hval with h | h
    · subst h
      simpa using hE
    · subst h
      simpa using hE
  exact evalNode_len hst.ok.children hst.rlt hE2

/-- Witness for C1: the Scenario-A build with assignment a=1, c=0, b=0, d=0
reaches terminal 1, as the oracle prescribes. -/
theorem robdd_build_functional_equivalence_witness :
    evalNode s1R.nodes Awit1 s1R.nodes.length root1R = some 1 :=
  robdd_build_functional_equivalence formula1 formula1_resp order1 s1R root1R rfl
    Awit1 (by
      intro w
      by_cases hw : w = "a" <;> simp [Awit1, hw])
    1 (Or.inr rfl) rfl

/-- C2: after a reduced build completes, no two distinct non-terminal node
ids in the Node Store carry the same (variable, low, high) triple. -/
theorem robdd_canonicity (oracle : Env → Option Nat) (order : List String)
    (s : RState) (root : Nat) (hb : ROBDD.build oracle order = some (s, root))
    (i j : Nat) (ni nj : Node)
    (hi : s.nodes[i]? = some ni) (hj : s.nodes[j]? = some nj)
    (hvi : ni.var ≠ none) (hvj : nj.var ≠ none) (hij : i ≠ j) :
    ¬ (ni.var = nj.var ∧ ni.low = nj.low ∧ ni.high = nj.high) := by
  rw [ROBDD.build] at hb
  have hst := robdd_buildAux_struct oracle order 0 [] initR s root hb initR_ok
  intro hcon
  obtain ⟨h1, h2, h3⟩ := hcon
  obtain ⟨nvi, nli, nhi⟩ := ni
  obtain ⟨nvj, nlj, nhj⟩ := nj
  have h1' : nvi = nvj := h1
  have h2' : nli = nlj := h2
  have h3' : nhi = nhj := h3
  subst h1'
  subst h2'
  subst h3'
  cases hvone : nvi with
  | none =>
    rw [hvone] at hi
    exact hvi hvone
  | some vi =>
    rw [hvone] at hi hj
    have hbwdi := hst.ok.bwd i vi nli nhi hi
    have hbwdj := hst.ok.bwd j vi nli nhi hj
    rw [hbwdi] at hbwdj
    injection hbwdj with h4
    exact hij h4

/-- Witness for C2: in the Scenario-A reduced store, the two distinct
d-nodes 2 and 3 indeed differ in their triples. -/
theorem robdd_canonicity_witness :
    ¬ ((Node.mk (some ("d")) 0 1).var = (Node.mk (some ("d")) 1 0).var ∧
       (Node.mk (some ("d")) 0 1).low = (Node.mk (some ("d")) 1 0).low ∧
       (Node.mk (some ("d")) 0 1).high = (Node.mk (some ("d")) 1 0).high) :=
  robdd_canonicity formula1 order1 s1R root1R rfl 2 3
    ⟨some ("d"), 0, 1⟩ ⟨some ("d"), 1, 0⟩ rfl rfl (by simp) (by simp) (by decide)

/-- C3: after a reduced build completes, no non-terminal node stored in the
Node Store has its low-child id equal to its high-child id (`mk` returns
the common child without allocating whenever low = high). -/
theorem robdd_rule1_enforcement (oracle : Env → Option Nat) (order : List String)
    (s : RState) (root : Nat) (hb : ROBDD.build oracle order = some (s, root))
    (i : Nat) (n : Node) (hi : s.nodes[i]? = some n) (hv : n.var ≠ none) :
    n.low ≠ n.high := by
  rw [ROBDD.build] at hb
  have hst := robdd_buildAux_struct oracle order 0 [] initR s root hb initR_ok
  exact hst.ok.nored i n hi hv

/-- Witness for C3: node 2 of the Scenario-A reduced store has
low = 0 ≠ 1 = high. -/
theorem robdd_rule1_enforcement_witness :
    (Node.mk (some ("d")) 0 1).low ≠ (Node.mk (some ("d")) 0 1).high :=
  robdd_rule1_enforcement formula1 order1 s1R root1R rfl 2
    ⟨some ("d"), 0, 1⟩ rfl (by simp)

/-- C9: in both variants every stored non-terminal node has low-child and
high-child ids strictly smaller than its own id (children are allocated
before their parent), so the stored graph is acyclic with valid child
indices. -/
theorem bdd_children_lt_id (oracle : Env → Option Nat) (order : List String)
    (s : RState) (root : Nat) (t : List Node) (root2 : Nat)
    (hR : ROBDD.build oracle order = some (s, root))
    (hU : BDD.build oracle order = some (t, root2))
    (i : Nat) (n : Node) (hi : s.nodes[i]? = some n) (hv : n.var ≠ none)
    (j : Nat) (m : Node) (hj : t[j]? = some m) (hw : m.var ≠ none) :
    (n.low < i ∧ n.high < i) ∧ (m.low < j ∧ m.high < j) := by
  rw [ROBDD.build] at hR
  rw [BDD.build] at hU
  have hst := robdd_buildAux_struct oracle order 0 [] initR s root hR initR_ok
  have hut := bdd_buildAux_struct oracle order [] initNodes t root2 hU
    initNodes_terms initNodes_children
  exact ⟨hst.ok.children i n hi hv, hut.children j m hj hw⟩

/-- Witness for C9: node 2 of each Scenario-A store has both children
strictly below 2. -/
theorem bdd_children_lt_id_witness :
    (((Node.mk (some ("d")) 0 1).low < 2 ∧ (Node.mk (some ("d")) 0 1).high < 2) ∧
     ((Node.mk (some ("d")) 0 1).low < 2 ∧ (Node.mk (some ("d")) 0 1).high < 2)) :=
  bdd_children_lt_id formula1 order1 s1R root1R nodes1U root1U rfl rfl
    2 ⟨some ("d"), 0, 1⟩ rfl (by simp) 2 ⟨some ("d"), 0, 1⟩ rfl (by simp)

/-- C6: for every variable order and oracle on which both builds complete,
the reduced (ROBDD) Node Store is no larger than the unreduced (plain BDD)
Node Store. -/
theorem sharing_monotonicity (oracle : Env → Option Nat) (order : List String)
    (s : RState) (root : Nat) (t : List Node) (root2 : Nat)
    (hR : ROBDD.build oracle order = some (s, root))
    (hU : BDD.build oracle order = some (t, root2)) :
    s.nodes.length ≤ t.length := by
  rw [ROBDD.build] at hR
  rw [BDD.build] at hU
  have hst := robdd_buildAux_struct oracle order 0 [] initR s root hR initR_ok
  have hut := bdd_buildAux_struct oracle order [] initNodes t root2 hU
    initNodes_terms initNodes_children
  have h1 := hst.lenle
  have h2 := hut.count
  have h3 : initR.nodes.length = 2 := rfl
  have h4 : initNodes.length = 2 := rfl
  omega

/-- Witness for C6: Scenario A gives 7 reduced nodes against 17 unreduced
nodes. -/
theorem sharing_monotonicity_witness : s1R.nodes.length ≤ nodes1U.length :=
  sharing_monotonicity formula1 order1 s1R root1R nodes1U root1U rfl rfl

/-- Counterexample for C4: the order a, c, b, d, a contains a duplicate
name, yet the reduced build returns a (NodeStore, rootId) result instead of
failing — the code performs no duplicate check. -/
theorem robdd_duplicate_order_counterexample :
    ¬ dupOrder.Nodup ∧ (ROBDD.build formula1 dupOrder).isSome := by
  decide

/-- C4 (amended): `ROBDD.build` performs no duplicate-name check; for any
variable order — duplicates included — whose names cover the variables the
oracle reads, the build returns a (NodeStore, rootId) result normally
instead of failing. -/
theorem robdd_no_duplicate_check (order : List String)
    (hcov : ∀ k, k ∈ vars1 → k ∈ order) :
    (ROBDD.build formula1 order).isSome := by
  rw [ROBDD.build]
  exact robdd_total_aux order 0 [] initR (fun k hk => Or.inl (hcov k hk))

/-- Witness for the amended C4: the duplicate order a, c, b, d, a builds
successfully. -/
theorem robdd_no_duplicate_check_witness :
    (ROBDD.build formula1 dupOrder).isSome :=
  robdd_no_duplicate_check dupOrder (by
    intro k hk
    have hk2 : k = "a" ∨ k = "b" ∨ k = "c" ∨ k = "d" := by
      simpa [vars1] using hk
    rcases hk2 with rfl | rfl | rfl | rfl <;> decide)

/-- Counterexample for C5: in the reduced Scenario-A build the oracle is
invoked 16 times while the final reduced Node Store has only 7 nodes, so
the number of oracle invocations is not bounded by the reduced node
count. -/
theorem robdd_eval_count_counterexample :
    s1R.nevals = 16 ∧ s1R.nodes.length = 7 ∧ ¬ s1R.nevals ≤ s1R.nodes.length := by
  decide

/-- C5 (amended): during a reduced build started at depth 0 with the empty
assignment, each distinct memo key is computed at most once (the trace of
computed keys has no duplicate), and the total number of oracle
invocations is at most the node count of the unreduced build on the same
order and oracle (it can exceed the reduced node count). -/
theorem robdd_memo_once_and_eval_bound (oracle : Env → Option Nat)
    (order : List String) (s : RState) (root : Nat) (t : List Node) (root2 : Nat)
    (hR : ROBDD.build oracle order = some (s, root))
    (hU : BDD.build oracle order = some (t, root2)) :
    s.computed.Nodup ∧ s.nevals ≤ t.length := by
  rw [ROBDD.build] at hR
  rw [BDD.build] at hU
  have hst := robdd_buildAux_struct oracle order 0 [] initR s root hR initR_ok
  have hut := bdd_buildAux_struct oracle order [] initNodes t root2 hU
    initNodes_terms initNodes_children
  refine ⟨hst.ok.compNodup, ?_⟩
  have h1 := hst.nevle
  have h2 := hut.count
  have h3 : initR.nevals = 0 := rfl
  have h4 : initNodes.length = 2 := rfl
  have hpos : 0 < 2 ^ order.length := pow_pos (by omega) _
  omega

/-- Witness for the amended C5: in Scenario A no memo key is computed twice
and the 16 oracle invocations are within the 17 unreduced nodes. -/
theorem robdd_memo_once_and_eval_bound_witness :
    s1R.computed.Nodup ∧ s1R.nevals ≤ nodes1U.length :=
  robdd_memo_once_and_eval_bound formula1 order1 s1R root1R nodes1U root1U rfl rfl

/-- C7: with order a, c, b, d and oracle (a ∧ ¬c) ∨ (b ⊕ d), the hardcoded
formula returns 1 on a=1, c=0, b=0, d=0 and 0 on a=0, c=1, b=0, d=0, and
traversing each built diagram (reduced and unreduced) under those
assignments reaches terminals 1 and 0 respectively. -/
theorem scenario_a :
    formula1 [("a", 1), ("c", 0), ("b", 0), ("d", 0)] = some 1 ∧
    formula1 [("a", 0), ("c", 1), ("b", 0), ("d", 0)] = some 0 ∧
    evalNode s1R.nodes Awit1 s1R.nodes.length root1R = some 1 ∧
    evalNode s1R.nodes Awit2 s1R.nodes.length root1R = some 0 ∧
    evalNode nodes1U Awit1 nodes1U.length root1U = some 1 ∧
    evalNode nodes1U Awit2 nodes1U.length root1U = some 0 := by
  refine ⟨rfl, rfl, rfl, rfl, rfl, rfl⟩

/-- C8: for the oracle over x1..x5 that is 1 iff at least three bits are 1,
every assignment with exactly three ones evaluates to 1, every assignment
with exactly two ones evaluates to 0, exactly 16 = C(5,3)+C(5,4)+C(5,5) of
the 32 assignments return 1, and the diagram built from the oracle reaches
the corresponding terminals. -/
theorem scenario_b :
    (allBits 5).length = 32 ∧
    (∀ bs, bs ∈ allBits 5 → bs.count 1 = 3 →
      formula2 (envOfBits order2 bs) = some 1) ∧
    (∀ bs, bs ∈ allBits 5 → bs.count 1 = 2 →
      formula2 (envOfBits order2 bs) = some 0) ∧
    ((allBits 5).countP (fun bs => formula2 (envOfBits order2 bs) == some 1) = 16) ∧
    (Nat.choose 5 3 + Nat.choose 5 4 + Nat.choose 5 5 = 16) ∧
    (∀ bs, bs ∈ allBits 5 → bs.count 1 = 3 →
      evalNode nodes2U (asgnOf order2 bs) nodes2U.length root2U = some 1) ∧
    (∀ bs, bs ∈ allBits 5 → bs.count 1 = 2 →
      evalNode nodes2U (asgnOf order2 bs) nodes2U.length root2U = some 0) := by
  decide

/-- Witness for C8: the theorem applied to the concrete assignments
1,1,1,0,0 (three ones) and 1,1,0,0,0 (two ones). -/
theorem scenario_b_witness :
    formula2 (envOfBits order2 [1, 1, 1, 0, 0]) = some 1 ∧
    formula2 (envOfBits order2 [1, 1, 0, 0, 0]) = some 0 ∧
    evalNode nodes2U (asgnOf order2 [1, 1, 1, 0, 0]) nodes2U.length root2U = some 1 :=
  ⟨scenario_b.2.1 [1, 1, 1, 0, 0] (by decide) (by decide),
   scenario_b.2.2.1 [1, 1, 0, 0, 0] (by decide) (by decide),
   scenario_b.2.2.2.2.2.1 [1, 1, 1, 0, 0] (by decide) (by decide)⟩

/-- C10: a build started with an environment/suffix pair that covers every
variable the oracle reads (as the depth-0 call with the empty assignment
and the full configured order does) never fails: the oracle is only ever
invoked with assignments binding all its variables, so every dictionary
lookup inside the formula succeeds and its key-error branch is
unreachable. -/
theorem oracle_calls_complete (idx : Nat) (rest : List String) (env : Env)
    (s : RState) (rest2 : List String) (env2 : Env) (nodes2 : List Node)
    (h1 : ∀ k, k ∈ vars1 → k ∈ rest ∨ (lookupA env k).isSome)
    (h2 : ∀ k, k ∈ vars2 → k ∈ rest2 ∨ (lookupA env2 k).isSome) :
    (ROBDD.buildAux formula1 idx rest env s).isSome ∧
    (BDD.buildAux formula2 rest2 env2 nodes2).isSome :=
  ⟨robdd_total_aux rest idx env s h1, bdd_total_aux rest2 env2 nodes2 h2⟩

/-- Witness for C10: the two configured depth-0 builds (empty assignment,
full order) both complete. -/
theorem oracle_calls_complete_witness :
    (ROBDD.buildAux formula1 0 order1 [] initR).isSome ∧
    (BDD.buildAux formula2 order2 [] initNodes).isSome :=
  oracle_calls_complete 0 order1 [] initR order2 [] initNodes
    (by
      intro k hk
      left
      have hk2 : k = "a" ∨ k = "b" ∨ k = "c" ∨ k = "d" := by
        simpa [vars1] using hk
      rcases hk2 with rfl | rfl | rfl | rfl <;> decide)
    (by
      intro k hk
      left
      have hk2 : k = "x1" ∨ k = "x2" ∨ k = "x3" ∨ k = "x4" ∨ k = "x5" := by
        simpa [vars2] using hk
      rcases hk2 with rfl | rfl | rfl | rfl | rfl <;> decide)
